import Mathlib

/-!
Shallow embedding of the Context & Memory Budgeting Engine described by the
specification of the agent-squad repository, together with models of two
frontend code paths (the `Dashboard.tsx` System Resources panel and the
`AgentChat.tsx` chat-message recording).

The repository's source tree holds only the React frontend, documentation and
startup scripts; the engine itself (Budgeting Engine, Context Store, Memory
Store) is described by the specification but its code is not present in the
tree.  Definitions whose doc comment starts with `Modelled from the spec:`
therefore follow the specification's §3–§7 wording; the frontend definitions
are translated from the named source files.
-/

open scoped List

namespace AgentSquad

/-- Modelled from the spec: the closed set of context-item kinds (§3). -/
inductive Kind where
  | system
  | user
  | agent_reply
  | tool_result
  | memory
  | collaboration
deriving DecidableEq, Repr

/-- Modelled from the spec: presentation priority of a kind (§4.2 phase 4:
system → collaboration → tool_result → memory → agent_reply → user). -/
def kindPriority : Kind → Nat
  | .system => 0
  | .collaboration => 1
  | .tool_result => 2
  | .memory => 3
  | .agent_reply => 4
  | .user => 5

/-- Modelled from the spec: a context item (§3).  Timestamps are naturals,
importance an exact rational in `[0,1]`, an embedding an abstract vector. -/
structure ContextItem where
  id : Nat
  kind : Kind
  content : String
  embedding : Option (List Rat)
  created_at : Nat
  token_count : Nat
  importance : Rat
deriving DecidableEq, Repr

/-- Modelled from the spec: configuration of an `admit()` call (§6).  The
recency half-life is folded into the abstract decay map given to `admission`. -/
structure Config where
  max_tokens : Nat
  similarity_threshold : Rat
  kind_weights : Kind → Rat

/-- Modelled from the spec: the error taxonomy of `admit()` (§7). -/
inductive EngineError where
  | itemTooLarge
  | budgetInfeasible
deriving DecidableEq, Repr

/-- Modelled from the spec: the result record of `admit()` (§6). -/
structure AdmissionResult where
  items : List ContextItem
  total_tokens : Nat
  dropped_ids : List Nat
deriving DecidableEq, Repr

/-- Sum of the cached token counts over a list of items. -/
def sumTokens (l : List ContextItem) : Nat :=
  (l.map (fun x => x.token_count)).sum

/-- Modelled from the spec: two items are redundant when both carry an
embedding and their similarity reaches the threshold (§4.2 phase 2). -/
def redundant (sim : List Rat → List Rat → Rat) (th : Rat) (a b : ContextItem) : Bool :=
  match a.embedding, b.embedding with
  | some u, some v => decide (th ≤ sim u v)
  | _, _ => false

/-- Modelled from the spec: of a redundant pair the earlier-listed item `a`
is kept over `b` only when it wins the tie-break chain — later `created_at`,
then higher importance, then kind priority, then insertion order (§4.2
phase 2 and the §9 stability note). -/
def keepFirst (a b : ContextItem) : Bool :=
  if a.created_at ≠ b.created_at then decide (b.created_at < a.created_at)
  else if a.importance ≠ b.importance then decide (b.importance < a.importance)
  else if kindPriority a.kind ≠ kindPriority b.kind then
    decide (kindPriority a.kind < kindPriority b.kind)
  else true

/-- One redundancy round (§4.2 phase 2): the current earliest item `x` is
compared against each later pool item in turn; every redundant later item it
wins against is removed, and `x` itself is removed at its first loss.
Returns whether `x` survived, together with the remaining pool. -/
def roundStep (red : ContextItem → ContextItem → Bool) (x : ContextItem) :
    List ContextItem → Bool × List ContextItem
  | [] => (true, [])
  | y :: ys =>
    if red x y then
      if keepFirst x y then roundStep red x ys
      else (false, y :: ys)
    else
      ((roundStep red x ys).1, y :: (roundStep red x ys).2)

/-- Fuel-indexed redundancy resolution over a pool listed in ascending
`created_at` order (§4.2 phase 2); the fuel only serves structural
recursion and is always instantiated with the pool length. -/
def dedupF (red : ContextItem → ContextItem → Bool) :
    Nat → List ContextItem → List ContextItem
  | 0, l => l
  | _ + 1, [] => []
  | n + 1, x :: xs =>
    if (roundStep red x xs).1 then x :: dedupF red n (roundStep red x xs).2
    else dedupF red n (roundStep red x xs).2

/-- Modelled from the spec: redundancy resolution of the candidate pool
(§4.2 phase 2). -/
def dedup (red : ContextItem → ContextItem → Bool) (l : List ContextItem) :
    List ContextItem :=
  dedupF red l.length l

/-- Modelled from the spec: ascending `created_at` preorder ordering the pool
before redundancy resolution (§4.2 phase 2). -/
def caLE (a b : ContextItem) : Prop := a.created_at ≤ b.created_at

instance : DecidableRel caLE := fun a b =>
  decidable_of_iff (a.created_at ≤ b.created_at) Iff.rfl

instance : IsTotal ContextItem caLE :=
  ⟨fun a b => Nat.le_total a.created_at b.created_at⟩

instance : IsTrans ContextItem caLE :=
  ⟨fun _ _ _ hab hbc => Nat.le_trans hab hbc⟩

/-- Modelled from the spec: the priority score of a surviving candidate (§4.2
phase 3); `decay age` stands for `exp (-age / recency_half_life)`, passed
abstractly because the engine reads it only through the computed scores. -/
def score (cfg : Config) (decay : Nat → Rat) (now : Nat) (x : ContextItem) : Rat :=
  cfg.kind_weights x.kind * x.importance * decay (now - x.created_at)

/-- Modelled from the spec: the ranking order of phase 3 — descending score,
ties broken by `created_at` descending (newer wins). -/
def rankRel (s : ContextItem → Rat) (a b : ContextItem) : Prop :=
  s b < s a ∨ (s a = s b ∧ b.created_at ≤ a.created_at)

instance (s : ContextItem → Rat) : DecidableRel (rankRel s) := fun a b =>
  decidable_of_iff (s b < s a ∨ (s a = s b ∧ b.created_at ≤ a.created_at)) Iff.rfl

/-- Modelled from the spec: presentation order of phase 4 — kind priority
first, then ascending `created_at` within a kind. -/
def presLE (a b : ContextItem) : Prop :=
  kindPriority a.kind < kindPriority b.kind ∨
    (kindPriority a.kind = kindPriority b.kind ∧ a.created_at ≤ b.created_at)

instance : DecidableRel presLE := fun a b =>
  decidable_of_iff
    (kindPriority a.kind < kindPriority b.kind ∨
      (kindPriority a.kind = kindPriority b.kind ∧ a.created_at ≤ b.created_at))
    Iff.rfl

/-- Modelled from the spec: the strict greedy walk of phase 3 — admit an item
while the running token sum stays within the ceiling, skip it otherwise. -/
def greedyTake (maxTokens : Nat) : Nat → List ContextItem → List ContextItem
  | _, [] => []
  | acc, x :: xs =>
    if acc + x.token_count ≤ maxTokens then
      x :: greedyTake maxTokens (acc + x.token_count) xs
    else greedyTake maxTokens acc xs

/-- Modelled from the spec: phase 2 — the pool, listed in ascending
`created_at` order, after redundancy resolution (§4.2). -/
def stageSurvivors (sim : List Rat → List Rat → Rat) (cfg : Config)
    (pool : List ContextItem) : List ContextItem :=
  dedup (redundant sim cfg.similarity_threshold) (List.insertionSort caLE pool)

/-- The system-kind part of the surviving pool (§4.2 phase 3). -/
def stageSys (survivors : List ContextItem) : List ContextItem :=
  survivors.filter (fun x => x.kind == Kind.system)

/-- The non-system part of the surviving pool (§4.2 phase 3). -/
def stageOthers (survivors : List ContextItem) : List ContextItem :=
  survivors.filter (fun x => !(x.kind == Kind.system))

/-- Modelled from the spec: phase 3 — system items first, then the strict
greedy walk over the non-system survivors ranked by descending score (§4.2). -/
def stageChosen (sim : List Rat → List Rat → Rat) (decay : Nat → Rat) (now : Nat)
    (cfg : Config) (pool : List ContextItem) : List ContextItem :=
  stageSys (stageSurvivors sim cfg pool) ++
    greedyTake cfg.max_tokens (sumTokens (stageSys (stageSurvivors sim cfg pool)))
      (List.insertionSort (rankRel (score cfg decay now))
        (stageOthers (stageSurvivors sim cfg pool)))

/-- Modelled from the spec: `admit(current_items, new_items, config)` (§4.2),
with the similarity scorer, the recency decay map and the clock value passed
as the outbound dependencies of §6. -/
def admission (sim : List Rat → List Rat → Rat) (decay : Nat → Rat) (now : Nat)
    (cfg : Config) (current_items new_items : List ContextItem) :
    Except EngineError AdmissionResult :=
  let pool := current_items ++ new_items
  if pool.any (fun x => decide (cfg.max_tokens < x.token_count)) then
    Except.error EngineError.itemTooLarge
  else if cfg.max_tokens < sumTokens (stageSys (stageSurvivors sim cfg pool)) then
    Except.error EngineError.budgetInfeasible
  else
    let chosen := stageChosen sim decay now cfg pool
    Except.ok
      { items := List.insertionSort presLE chosen
        total_tokens := sumTokens (List.insertionSort presLE chosen)
        dropped_ids := (pool.filter (fun x => !chosen.contains x)).map (fun x => x.id) }

/-- Modelled from the spec: the engine reconciles the Context Store to the
admitted set on success and leaves it untouched on failure (§4.2, §7). -/
def admissionReconcile (sim : List Rat → List Rat → Rat) (decay : Nat → Rat)
    (now : Nat) (cfg : Config) (store new_items : List ContextItem) :
    List ContextItem × Except EngineError AdmissionResult :=
  match admission sim decay now cfg store new_items with
  | Except.ok r => (r.items, Except.ok r)
  | Except.error e => (store, Except.error e)

/-- Modelled from the spec: creation of a context item — `token_count` is
computed exactly once, at insertion, by the Tokenizer Adapter (§3). -/
def mkContextItem (count_tokens : String → Nat) (id : Nat) (kind : Kind)
    (content : String) (embedding : Option (List Rat)) (created_at : Nat)
    (importance : Rat) : ContextItem :=
  { id := id, kind := kind, content := content, embedding := embedding,
    created_at := created_at, token_count := count_tokens content,
    importance := importance }

/-- Modelled from the spec: a long-term memory record (§3). -/
structure MemoryRecord where
  id : Nat
  content : String
  embedding : Option (List Rat)
  created_at : Nat
  importance : Rat
  access_count : Nat
  last_accessed_at : Nat
deriving DecidableEq, Repr

/-- Modelled from the spec: decayed importance
`importance * exp (-(now - last_accessed_at) / decay_half_life)` (§4.3), the
exponential passed abstractly as the decay map. -/
def decayedImportance (decay : Nat → Rat) (now : Nat) (r : MemoryRecord) : Rat :=
  r.importance * decay (now - r.last_accessed_at)

/-- Descending decayed-importance preorder used by consolidation. -/
def decayGE (decay : Nat → Rat) (now : Nat) (a b : MemoryRecord) : Prop :=
  decayedImportance decay now b ≤ decayedImportance decay now a

instance (decay : Nat → Rat) (now : Nat) : DecidableRel (decayGE decay now) :=
  fun a b =>
    decidable_of_iff (decayedImportance decay now b ≤ decayedImportance decay now a) Iff.rfl

instance (decay : Nat → Rat) (now : Nat) : IsTotal MemoryRecord (decayGE decay now) :=
  ⟨fun a b => le_total (decayedImportance decay now b) (decayedImportance decay now a)⟩

instance (decay : Nat → Rat) (now : Nat) : IsTrans MemoryRecord (decayGE decay now) :=
  ⟨fun _ _ _ hab hbc => le_trans hbc hab⟩

/-- Modelled from the spec: `consolidate(max_records, decay_half_life)` (§4.3)
— when the store holds more than `max_records` records, keep the
`max_records` of highest decayed importance and remove the rest. -/
def consolidate (decay : Nat → Rat) (now : Nat) (max_records : Nat)
    (store : List MemoryRecord) : List MemoryRecord :=
  if store.length ≤ max_records then store
  else (List.insertionSort (decayGE decay now) store).take max_records

/-- Shape of an agent entry as the Dashboard consumes it
(`src/frontend/src/pages/Dashboard.tsx`). -/
structure DashAgent where
  name : String
  agentType : String
  status : String
deriving DecidableEq, Repr

/-- Shape of the health payload as the Dashboard consumes it
(`src/frontend/src/pages/Dashboard.tsx`). -/
structure DashHealth where
  status : String
  version : String
deriving DecidableEq, Repr

/-- From `src/frontend/src/pages/Dashboard.tsx` lines 318–371: the three
`LinearProgress` values of the System Resources panel (Memory, CPU, Token
usage).  The JSX renders the literals 65, 32 and 78 whatever the fetched
agents list and health data hold. -/
def systemResources (_agents : List DashAgent) (_health : Option DashHealth) :
    Nat × Nat × Nat :=
  (65, 32, 78)

/-- From `src/frontend/src/pages/AgentChat.tsx` line 170: the fallback token
count `Math.floor(Math.random() * 500) + 100`, with `r` the random draw. -/
def fabricatedTokens (r : Rat) : Int :=
  (r * 500).floor + 100

/-- From `src/frontend/src/pages/AgentChat.tsx` line 170:
`response.tokens_used || Math.floor(Math.random() * 500) + 100`; an absent
field and the number 0 are the falsy cases of `||`. -/
def recordedTokensUsed (resp_tokens : Option Int) (r : Rat) : Int :=
  match resp_tokens with
  | some n => if n = 0 then fabricatedTokens r else n
  | none => fabricatedTokens r

/-- From `src/frontend/src/pages/AgentChat.tsx` line 171:
`response.cost || Math.random() * 0.01`; an absent field and the number 0 are
the falsy cases of `||`. -/
def recordedCost (resp_cost : Option Rat) (r : Rat) : Rat :=
  match resp_cost with
  | some c => if c = 0 then r * (1 / 100) else c
  | none => r * (1 / 100)

/-! ### Concrete instances evaluated by the witnesses -/

/-- A small concrete configuration: 100-token budget, default 0.92 threshold,
all kind weights 1. -/
def cfg1 : Config :=
  { max_tokens := 100, similarity_threshold := 92 / 100, kind_weights := fun _ => 1 }

/-- A concrete symmetric similarity scorer: 1 on equal vectors, else 0. -/
def sim1 : List Rat → List Rat → Rat := fun u v => if u = v then 1 else 0

/-- A concrete decay map (no decay). -/
def decay1 : Nat → Rat := fun _ => 1

/-- System item carrying an embedding, created at time 1. -/
def itemSys : ContextItem :=
  { id := 1, kind := Kind.system, content := "sys", embedding := some [1],
    created_at := 1, token_count := 10, importance := 1 / 2 }

/-- User item carrying the same embedding, created later, at time 2. -/
def itemUser : ContextItem :=
  { id := 2, kind := Kind.user, content := "usr", embedding := some [1],
    created_at := 2, token_count := 10, importance := 1 / 2 }

/-- Plain user item without an embedding. -/
def itemPlain : ContextItem :=
  { id := 3, kind := Kind.user, content := "txt", embedding := none,
    created_at := 3, token_count := 30, importance := 1 / 2 }

/-- Oversized user item: 150 tokens against the 100-token budget. -/
def itemBig : ContextItem :=
  { id := 4, kind := Kind.user, content := "big", embedding := none,
    created_at := 4, token_count := 150, importance := 1 / 2 }

/-- System item without an embedding. -/
def itemSysPlain : ContextItem :=
  { id := 5, kind := Kind.system, content := "s", embedding := none,
    created_at := 1, token_count := 10, importance := 1 / 2 }

/-- First of two system items which together overflow the budget. -/
def itemSys60a : ContextItem :=
  { id := 6, kind := Kind.system, content := "s1", embedding := none,
    created_at := 1, token_count := 60, importance := 1 / 2 }

/-- Second of two system items which together overflow the budget. -/
def itemSys60b : ContextItem :=
  { id := 7, kind := Kind.system, content := "s2", embedding := none,
    created_at := 2, token_count := 60, importance := 1 / 2 }

/-- Result of admitting `itemPlain` alone. -/
def res0 : AdmissionResult :=
  { items := [itemPlain], total_tokens := 30, dropped_ids := [] }

/-- Result of admitting `itemSysPlain` alone. -/
def resSys : AdmissionResult :=
  { items := [itemSysPlain], total_tokens := 10, dropped_ids := [] }

/-- Result of admitting `itemSys` and `itemUser` together: redundancy
resolution keeps only the newer `itemUser`. -/
def resDedup : AdmissionResult :=
  { items := [itemUser], total_tokens := 10, dropped_ids := [1] }

/-- Memory record of decayed importance 0.9 under `decay1` at `now = 5`. -/
def rec9 : MemoryRecord :=
  { id := 1, content := "a", embedding := none, created_at := 0,
    importance := 9 / 10, access_count := 0, last_accessed_at := 5 }

/-- Memory record of decayed importance 0.3 under `decay1` at `now = 5`. -/
def rec3 : MemoryRecord :=
  { id := 2, content := "b", embedding := none, created_at := 0,
    importance := 3 / 10, access_count := 0, last_accessed_at := 5 }

/-- Memory record of decayed importance 0.6 under `decay1` at `now = 5`. -/
def rec6 : MemoryRecord :=
  { id := 3, content := "c", embedding := none, created_at := 0,
    importance := 6 / 10, access_count := 0, last_accessed_at := 5 }

/-! ### Lemmas about redundancy resolution -/

theorem roundStep_sublist (red : ContextItem → ContextItem → Bool) (x : ContextItem) :
    ∀ l : List ContextItem, (roundStep red x l).2 <+ l := by
  intro l
  induction l with
  | nil => exact List.Sublist.refl _
  | cons y ys ih =>
    simp only [roundStep]
    split
    · split
      · exact ih.cons y
      · exact List.Sublist.refl _
    · exact ih.cons₂ y

theorem roundStep_true_not_red (red : ContextItem → ContextItem → Bool) (x : ContextItem) :
    ∀ l : List ContextItem, (roundStep red x l).1 = true →
      ∀ y ∈ (roundStep red x l).2, red x y = false := by
  intro l
  induction l with
  | nil => intro _ y hy; simp [roundStep] at hy
  | cons z zs ih =>
    simp only [roundStep]
    split
    · split
      · exact ih
      · intro h1; exact absurd h1 (by simp)
    · rename_i hred
      intro h1 y hy
      rcases List.mem_cons.mp hy with h | h
      · subst h; simpa using hred
      · exact ih h1 y h

theorem roundStep_of_not_red (red : ContextItem → ContextItem → Bool) (x : ContextItem) :
    ∀ l : List ContextItem, (∀ y ∈ l, red x y = false) → roundStep red x l = (true, l) := by
  intro l
  induction l with
  | nil => intro _; rfl
  | cons z zs ih =>
    intro h
    have hz : red x z = false := h z (List.mem_cons_self z zs)
    have hrec := ih (fun y hy => h y (List.mem_cons_of_mem z hy))
    simp [roundStep, hz, hrec]

theorem dedupF_sublist (red : ContextItem → ContextItem → Bool) :
    ∀ (n : Nat) (l : List ContextItem), dedupF red n l <+ l := by
  intro n
  induction n with
  | zero => intro l; exact List.Sublist.refl _
  | succ n ih =>
    intro l
    cases l with
    | nil => exact List.Sublist.refl _
    | cons x xs =>
      simp only [dedupF]
      split
      · exact ((ih _).trans (roundStep_sublist red x xs)).cons₂ x
      · exact ((ih _).trans (roundStep_sublist red x xs)).cons x

theorem dedup_sublist (red : ContextItem → ContextItem → Bool) (l : List ContextItem) :
    dedup red l <+ l :=
  dedupF_sublist red l.length l

theorem dedupF_pairwise (red : ContextItem → ContextItem → Bool) :
    ∀ (n : Nat) (l : List ContextItem), l.length ≤ n →
      (dedupF red n l).Pairwise (fun a b => red a b = false) := by
  intro n
  induction n with
  | zero =>
    intro l hl
    have h0 : l = [] := List.eq_nil_of_length_eq_zero (Nat.le_zero.mp hl)
    subst h0; simp [dedupF]
  | succ n ih =>
    intro l hl
    cases l with
    | nil => simp [dedupF]
    | cons x xs =>
      have hlen : (roundStep red x xs).2.length ≤ n :=
        le_trans (roundStep_sublist red x xs).length_le
          (Nat.le_of_succ_le_succ (by simpa using hl))
      simp only [dedupF]
      split
      · rename_i hs
        refine List.Pairwise.cons ?_ (ih _ hlen)
        intro y hy
        exact roundStep_true_not_red red x xs hs y ((dedupF_sublist red n _).subset hy)
      · exact ih _ hlen

theorem dedup_pairwise (red : ContextItem → ContextItem → Bool) (l : List ContextItem) :
    (dedup red l).Pairwise (fun a b => red a b = false) :=
  dedupF_pairwise red l.length l (le_refl _)

theorem dedupF_eq_of_pairwise (red : ContextItem → ContextItem → Bool) :
    ∀ (n : Nat) (l : List ContextItem),
      l.Pairwise (fun a b => red a b = false) → dedupF red n l = l := by
  intro n
  induction n with
  | zero => intro l _; rfl
  | succ n ih =>
    intro l hp
    cases l with
    | nil => rfl
    | cons x xs =>
      rcases List.pairwise_cons.mp hp with ⟨hx, hxs⟩
      have h1 := roundStep_of_not_red red x xs (fun y hy => hx y hy)
      simp [dedupF, h1, ih xs hxs]

theorem dedup_eq_of_pairwise (red : ContextItem → ContextItem → Bool)
    (l : List ContextItem) (h : l.Pairwise (fun a b => red a b = false)) :
    dedup red l = l :=
  dedupF_eq_of_pairwise red l.length l h

/-! ### Lemmas about token sums and the greedy walk -/

theorem sumTokens_cons (x : ContextItem) (l : List ContextItem) :
    sumTokens (x :: l) = x.token_count + sumTokens l := by
  simp [sumTokens]

theorem sumTokens_append (a b : List ContextItem) :
    sumTokens (a ++ b) = sumTokens a + sumTokens b := by
  simp [sumTokens]

theorem sumTokens_perm {l₁ l₂ : List ContextItem} (h : l₁.Perm l₂) :
    sumTokens l₁ = sumTokens l₂ :=
  List.Perm.sum_eq (h.map (fun x => x.token_count))

theorem sumTokens_sublist_le {l₁ l₂ : List ContextItem} (h : l₁ <+ l₂) :
    sumTokens l₁ ≤ sumTokens l₂ := by
  induction h with
  | slnil => exact le_refl _
  | cons a _ ih => rw [sumTokens_cons]; omega
  | cons₂ a _ ih => rw [sumTokens_cons, sumTokens_cons]; omega

theorem mem_le_sumTokens {x : ContextItem} {l : List ContextItem} (h : x ∈ l) :
    x.token_count ≤ sumTokens l := by
  induction l with
  | nil => cases h
  | cons y ys ih =>
    rw [sumTokens_cons]
    rcases List.mem_cons.mp h with h1 | h1
    · subst h1; omega
    · have := ih h1; omega

theorem greedyTake_sublist (m : Nat) :
    ∀ (acc : Nat) (l : List ContextItem), greedyTake m acc l <+ l := by
  intro acc l
  induction l generalizing acc with
  | nil => exact List.Sublist.refl _
  | cons x xs ih =>
    simp only [greedyTake]
    split
    · exact (ih _).cons₂ x
    · exact (ih _).cons x

theorem greedyTake_le (m : Nat) :
    ∀ (acc : Nat) (l : List ContextItem), acc ≤ m →
      acc + sumTokens (greedyTake m acc l) ≤ m := by
  intro acc l
  induction l generalizing acc with
  | nil => intro h; simpa [greedyTake, sumTokens]
  | cons x xs ih =>
    intro h
    simp only [greedyTake]
    split
    · rename_i hfit
      rw [sumTokens_cons]
      have := ih (acc + x.token_count) hfit
      omega
    · exact ih acc h

theorem greedyTake_all (m : Nat) :
    ∀ (acc : Nat) (l : List ContextItem), acc + sumTokens l ≤ m →
      greedyTake m acc l = l := by
  intro acc l
  induction l generalizing acc with
  | nil => intro _; rfl
  | cons x xs ih =>
    intro h
    rw [sumTokens_cons] at h
    have hfit : acc + x.token_count ≤ m := by omega
    simp only [greedyTake, if_pos hfit]
    rw [ih (acc + x.token_count) (by omega)]

/-! ### Lemmas about the admission pipeline -/

theorem admission_eq_tooLarge (sim : List Rat → List Rat → Rat) (decay : Nat → Rat)
    (now : Nat) (cfg : Config) (cur new : List ContextItem)
    (h : (cur ++ new).any (fun x => decide (cfg.max_tokens < x.token_count)) = true) :
    admission sim decay now cfg cur new = Except.error EngineError.itemTooLarge := by
  simp [admission, h]

theorem admission_eq_infeasible (sim : List Rat → List Rat → Rat) (decay : Nat → Rat)
    (now : Nat) (cfg : Config) (cur new : List ContextItem)
    (h1 : (cur ++ new).any (fun x => decide (cfg.max_tokens < x.token_count)) = false)
    (h2 : cfg.max_tokens < sumTokens (stageSys (stageSurvivors sim cfg (cur ++ new)))) :
    admission sim decay now cfg cur new = Except.error EngineError.budgetInfeasible := by
  simp [admission, h1, h2]

theorem admission_eq_ok (sim : List Rat → List Rat → Rat) (decay : Nat → Rat)
    (now : Nat) (cfg : Config) (cur new : List ContextItem)
    (h1 : (cur ++ new).any (fun x => decide (cfg.max_tokens < x.token_count)) = false)
    (h2 : ¬ cfg.max_tokens < sumTokens (stageSys (stageSurvivors sim cfg (cur ++ new)))) :
    admission sim decay now cfg cur new = Except.ok
      { items := List.insertionSort presLE (stageChosen sim decay now cfg (cur ++ new))
        total_tokens :=
          sumTokens (List.insertionSort presLE (stageChosen sim decay now cfg (cur ++ new)))
        dropped_ids :=
          ((cur ++ new).filter
            (fun x => !(stageChosen sim decay now cfg (cur ++ new)).contains x)).map
            (fun x => x.id) } := by
  simp [admission, h1, h2]

theorem admission_ok_inv {sim : List Rat → List Rat → Rat} {decay : Nat → Rat}
    {now : Nat} {cfg : Config} {cur new : List ContextItem} {R : AdmissionResult}
    (hok : admission sim decay now cfg cur new = Except.ok R) :
    (cur ++ new).any (fun x => decide (cfg.max_tokens < x.token_count)) = false ∧
      sumTokens (stageSys (stageSurvivors sim cfg (cur ++ new))) ≤ cfg.max_tokens ∧
      R.items = List.insertionSort presLE (stageChosen sim decay now cfg (cur ++ new)) ∧
      R.total_tokens = sumTokens R.items := by
  by_cases h1 : (cur ++ new).any (fun x => decide (cfg.max_tokens < x.token_count)) = true
  · rw [admission_eq_tooLarge sim decay now cfg cur new h1] at hok
    simp at hok
  · have h1f : (cur ++ new).any (fun x => decide (cfg.max_tokens < x.token_count)) = false := by
      simpa using h1
    by_cases h2 : cfg.max_tokens < sumTokens (stageSys (stageSurvivors sim cfg (cur ++ new)))
    · rw [admission_eq_infeasible sim decay now cfg cur new h1f h2] at hok
      simp at hok
    · rw [admission_eq_ok sim decay now cfg cur new h1f h2] at hok
      have hR := (Except.ok.injEq _ _).mp hok
      refine ⟨h1f, Nat.not_lt.mp h2, ?_, ?_⟩
      · rw [← hR]
      · rw [← hR]

theorem stageChosen_subperm (sim : List Rat → List Rat → Rat) (decay : Nat → Rat)
    (now : Nat) (cfg : Config) (pool : List ContextItem) :
    stageChosen sim decay now cfg pool <+~ stageSurvivors sim cfg pool := by
  unfold stageChosen
  have h1 := greedyTake_sublist cfg.max_tokens
    (sumTokens (stageSys (stageSurvivors sim cfg pool)))
    (List.insertionSort (rankRel (score cfg decay now)) (stageOthers (stageSurvivors sim cfg pool)))
  have h2 := h1.append_left (stageSys (stageSurvivors sim cfg pool))
  have h3 : stageSys (stageSurvivors sim cfg pool) ++
      List.insertionSort (rankRel (score cfg decay now)) (stageOthers (stageSurvivors sim cfg pool))
      ~ stageSys (stageSurvivors sim cfg pool) ++ stageOthers (stageSurvivors sim cfg pool) :=
    List.Perm.append_left _ (List.perm_insertionSort _ _)
  have h4 : stageSys (stageSurvivors sim cfg pool) ++ stageOthers (stageSurvivors sim cfg pool)
      ~ stageSurvivors sim cfg pool :=
    List.filter_append_perm _ _
  exact h2.subperm.trans ((h3.trans h4).subperm)

theorem admission_items_subperm {sim : List Rat → List Rat → Rat} {decay : Nat → Rat}
    {now : Nat} {cfg : Config} {cur new : List ContextItem} {R : AdmissionResult}
    (hok : admission sim decay now cfg cur new = Except.ok R) :
    R.items <+~ stageSurvivors sim cfg (cur ++ new) := by
  obtain ⟨_, _, hitems, _⟩ := admission_ok_inv hok
  rw [hitems]
  exact (List.perm_insertionSort _ _).subperm.trans (stageChosen_subperm sim decay now cfg _)

theorem admission_items_subset_pool {sim : List Rat → List Rat → Rat} {decay : Nat → Rat}
    {now : Nat} {cfg : Config} {cur new : List ContextItem} {R : AdmissionResult}
    (hok : admission sim decay now cfg cur new = Except.ok R) :
    ∀ x ∈ R.items, x ∈ cur ++ new := by
  intro x hx
  have h1 := (admission_items_subperm hok).subset hx
  unfold stageSurvivors at h1
  have h2 := (dedup_sublist _ _).subset h1
  exact (List.perm_insertionSort caLE _).subset h2

theorem admission_total_le {sim : List Rat → List Rat → Rat} {decay : Nat → Rat}
    {now : Nat} {cfg : Config} {cur new : List ContextItem} {R : AdmissionResult}
    (hok : admission sim decay now cfg cur new = Except.ok R) :
    R.total_tokens = sumTokens R.items ∧ sumTokens R.items ≤ cfg.max_tokens := by
  obtain ⟨_, h2, hitems, htot⟩ := admission_ok_inv hok
  refine ⟨htot, ?_⟩
  rw [hitems, sumTokens_perm (List.perm_insertionSort presLE _)]
  unfold stageChosen
  rw [sumTokens_append]
  have h3 := greedyTake_le cfg.max_tokens
    (sumTokens (stageSys (stageSurvivors sim cfg (cur ++ new))))
    (List.insertionSort (rankRel (score cfg decay now))
      (stageOthers (stageSurvivors sim cfg (cur ++ new)))) h2
  omega

theorem reconcile_preserves_budget (sim : List Rat → List Rat → Rat) (decay : Nat → Rat)
    (now : Nat) (cfg : Config) (store new : List ContextItem)
    (h : sumTokens store ≤ cfg.max_tokens) :
    sumTokens (admissionReconcile sim decay now cfg store new).1 ≤ cfg.max_tokens := by
  unfold admissionReconcile
  cases hcall : admission sim decay now cfg store new with
  | ok r =>
    simpa using (admission_total_le hcall).2
  | error e =>
    simpa using h

/-! ### Redundancy exclusion and idempotence -/

theorem redundant_symm {sim : List Rat → List Rat → Rat}
    (hsym : ∀ u v, sim u v = sim v u) (th : Rat) (a b : ContextItem) :
    redundant sim th a b = redundant sim th b a := by
  unfold redundant
  cases a.embedding <;> cases b.embedding <;> simp [hsym]

theorem survivors_pairwise_sorted (sim : List Rat → List Rat → Rat) (cfg : Config)
    (pool : List ContextItem) :
    (stageSurvivors sim cfg pool).Pairwise
      (fun a b => redundant sim cfg.similarity_threshold a b = false ∧ caLE a b) := by
  unfold stageSurvivors
  refine (dedup_pairwise _ _).and ?_
  exact List.Pairwise.sublist (dedup_sublist _ _) (List.sorted_insertionSort caLE pool)

theorem survivors_exclusion {sim : List Rat → List Rat → Rat} {cfg : Config}
    {pool : List ContextItem} {x y : ContextItem}
    (hx : x ∈ stageSurvivors sim cfg pool) (hy : y ∈ stageSurvivors sim cfg pool)
    (hca : x.created_at < y.created_at) :
    redundant sim cfg.similarity_threshold x y = false := by
  have hboth := survivors_pairwise_sorted sim cfg pool
  have hsym2 : Symmetric (fun a b : ContextItem =>
      (redundant sim cfg.similarity_threshold a b = false ∧ caLE a b) ∨
        (redundant sim cfg.similarity_threshold b a = false ∧ caLE b a)) :=
    fun a b h => h.symm
  have hforall := (hboth.imp (fun h => Or.inl h)).forall hsym2
  have hne : x ≠ y := by
    intro he
    rw [he] at hca
    exact lt_irrefl _ hca
  rcases hforall hx hy hne with h | h
  · exact h.1
  · exact absurd h.2 (Nat.not_le.mpr hca)

theorem admission_dedup_exclusion {sim : List Rat → List Rat → Rat} {decay : Nat → Rat}
    {now : Nat} {cfg : Config} {cur new : List ContextItem} {R : AdmissionResult}
    {x y : ContextItem} {ex ey : List Rat}
    (hok : admission sim decay now cfg cur new = Except.ok R)
    (hxe : x.embedding = some ex) (hye : y.embedding = some ey)
    (hsim : cfg.similarity_threshold ≤ sim ex ey)
    (hca : x.created_at < y.created_at)
    (hy : y ∈ R.items) : x ∉ R.items := by
  intro hx
  have hsubp := admission_items_subperm hok
  have hfalse := survivors_exclusion (hsubp.subset hx) (hsubp.subset hy) hca
  have htrue : redundant sim cfg.similarity_threshold x y = true := by
    unfold redundant
    rw [hxe, hye]
    simpa using hsim
  rw [htrue] at hfalse
  cases hfalse

theorem system_in_items {sim : List Rat → List Rat → Rat} {decay : Nat → Rat}
    {now : Nat} {cfg : Config} {cur new : List ContextItem} {R : AdmissionResult}
    {x : ContextItem}
    (hok : admission sim decay now cfg cur new = Except.ok R)
    (hx : x ∈ stageSurvivors sim cfg (cur ++ new)) (hk : x.kind = Kind.system) :
    x ∈ R.items := by
  obtain ⟨_, _, hitems, _⟩ := admission_ok_inv hok
  rw [hitems, (List.perm_insertionSort presLE _).mem_iff]
  unfold stageChosen
  apply List.mem_append_left
  unfold stageSys
  rw [List.mem_filter]
  exact ⟨hx, by simp [hk]⟩

theorem infeasible_of_sys_overflow {sim : List Rat → List Rat → Rat} (decay : Nat → Rat)
    (now : Nat) {cfg : Config} {cur new : List ContextItem}
    (hfit : ∀ z ∈ cur ++ new, z.token_count ≤ cfg.max_tokens)
    (hover : cfg.max_tokens < sumTokens (stageSys (stageSurvivors sim cfg (cur ++ new)))) :
    admission sim decay now cfg cur new = Except.error EngineError.budgetInfeasible := by
  have h1 : (cur ++ new).any (fun x => decide (cfg.max_tokens < x.token_count)) = false := by
    rw [List.any_eq_false]
    intro z hz
    simpa using Nat.not_lt.mpr (hfit z hz)
  exact admission_eq_infeasible sim decay now cfg cur new h1 hover

theorem admission_idem {sim : List Rat → List Rat → Rat} {decay : Nat → Rat}
    {now : Nat} {cfg : Config} {cur new : List ContextItem} {R : AdmissionResult}
    (hsym : ∀ u v, sim u v = sim v u)
    (hok : admission sim decay now cfg cur new = Except.ok R) :
    ∃ Rtwo, admission sim decay now cfg R.items [] = Except.ok Rtwo ∧
      Rtwo.items ~ R.items := by
  obtain ⟨_, hle⟩ := admission_total_le hok
  have hsymm2 : ∀ {a b : ContextItem},
      redundant sim cfg.similarity_threshold a b = false →
        redundant sim cfg.similarity_threshold b a = false := by
    intro a b h
    rw [redundant_symm hsym]
    exact h
  have hpool2 : R.items ++ ([] : List ContextItem) = R.items := List.append_nil _
  have h1 : (R.items ++ ([] : List ContextItem)).any
      (fun x => decide (cfg.max_tokens < x.token_count)) = false := by
    rw [hpool2, List.any_eq_false]
    intro z hz
    simpa using Nat.not_lt.mpr (le_trans (mem_le_sumTokens hz) hle)
  have hsubp := admission_items_subperm hok
  obtain ⟨mid, hmidperm, hmidsub⟩ := hsubp
  have hpair1 : (stageSurvivors sim cfg (cur ++ new)).Pairwise
      (fun a b => redundant sim cfg.similarity_threshold a b = false) :=
    dedup_pairwise _ _
  have hpairR : R.items.Pairwise
      (fun a b => redundant sim cfg.similarity_threshold a b = false) :=
    (List.Pairwise.sublist hmidsub hpair1).perm hmidperm (fun h => hsymm2 h)
  have hpairSorted : (List.insertionSort caLE R.items).Pairwise
      (fun a b => redundant sim cfg.similarity_threshold a b = false) :=
    hpairR.perm (List.perm_insertionSort caLE R.items).symm (fun h => hsymm2 h)
  have hsurv2 : stageSurvivors sim cfg (R.items ++ []) = List.insertionSort caLE R.items := by
    rw [hpool2]
    unfold stageSurvivors
    exact dedup_eq_of_pairwise _ _ hpairSorted
  have hsortsum : sumTokens (List.insertionSort caLE R.items) = sumTokens R.items :=
    sumTokens_perm (List.perm_insertionSort _ _)
  have hsysle : sumTokens (stageSys (stageSurvivors sim cfg (R.items ++ []))) ≤
      cfg.max_tokens := by
    rw [hsurv2]
    calc sumTokens (stageSys (List.insertionSort caLE R.items))
        ≤ sumTokens (List.insertionSort caLE R.items) :=
          sumTokens_sublist_le (List.filter_sublist _)
      _ = sumTokens R.items := hsortsum
      _ ≤ cfg.max_tokens := hle
  have h2 : ¬ cfg.max_tokens <
      sumTokens (stageSys (stageSurvivors sim cfg (R.items ++ []))) :=
    Nat.not_lt.mpr hsysle
  have hchosen : stageChosen sim decay now cfg (R.items ++ []) ~
      stageSurvivors sim cfg (R.items ++ []) := by
    unfold stageChosen
    have hpartsum : sumTokens (stageSys (stageSurvivors sim cfg (R.items ++ []))) +
        sumTokens (stageOthers (stageSurvivors sim cfg (R.items ++ []))) =
          sumTokens (stageSurvivors sim cfg (R.items ++ [])) := by
      rw [← sumTokens_append]
      exact sumTokens_perm (List.filter_append_perm _ _)
    have hsum : sumTokens (stageSys (stageSurvivors sim cfg (R.items ++ []))) +
        sumTokens (List.insertionSort (rankRel (score cfg decay now))
          (stageOthers (stageSurvivors sim cfg (R.items ++ [])))) ≤ cfg.max_tokens := by
      rw [sumTokens_perm (List.perm_insertionSort (rankRel (score cfg decay now)) _), hpartsum]
      rw [hsurv2, hsortsum]
      exact hle
    rw [greedyTake_all cfg.max_tokens _ _ hsum]
    exact (List.Perm.append_left _ (List.perm_insertionSort _ _)).trans
      (List.filter_append_perm _ _)
  refine ⟨_, admission_eq_ok sim decay now cfg R.items [] h1 h2, ?_⟩
  calc List.insertionSort presLE (stageChosen sim decay now cfg (R.items ++ []))
      ~ stageChosen sim decay now cfg (R.items ++ []) := List.perm_insertionSort _ _
    _ ~ stageSurvivors sim cfg (R.items ++ []) := hchosen
    _ = List.insertionSort caLE R.items := hsurv2
    _ ~ R.items := List.perm_insertionSort _ _

/-! ### Lemmas about memory consolidation -/

theorem consolidate_eq_of_le {decay : Nat → Rat} {now max_records : Nat}
    {store : List MemoryRecord} (h : store.length ≤ max_records) :
    consolidate decay now max_records store = store := by
  unfold consolidate
  rw [if_pos h]

theorem consolidate_eq_of_lt {decay : Nat → Rat} {now max_records : Nat}
    {store : List MemoryRecord} (h : max_records < store.length) :
    consolidate decay now max_records store =
      (List.insertionSort (decayGE decay now) store).take max_records := by
  unfold consolidate
  rw [if_neg (Nat.not_le.mpr h)]

theorem consolidate_length {decay : Nat → Rat} {now max_records : Nat}
    {store : List MemoryRecord} (h : max_records < store.length) :
    (consolidate decay now max_records store).length = max_records := by
  rw [consolidate_eq_of_lt h, List.length_take,
    (List.perm_insertionSort (decayGE decay now) store).length_eq]
  omega

theorem consolidate_subset {decay : Nat → Rat} {now max_records : Nat}
    {store : List MemoryRecord} (h : max_records < store.length) :
    ∀ x ∈ consolidate decay now max_records store, x ∈ store := by
  rw [consolidate_eq_of_lt h]
  intro x hx
  exact (List.perm_insertionSort (decayGE decay now) store).subset
    ((List.take_sublist _ _).subset hx)

theorem consolidate_keeps_highest {decay : Nat → Rat} {now max_records : Nat}
    {store : List MemoryRecord} (h : max_records < store.length) :
    ∀ x ∈ consolidate decay now max_records store, ∀ y ∈ store,
      y ∉ consolidate decay now max_records store →
        decayedImportance decay now y ≤ decayedImportance decay now x := by
  rw [consolidate_eq_of_lt h]
  intro x hx y hy hyn
  have hysorted : y ∈ List.insertionSort (decayGE decay now) store :=
    (List.perm_insertionSort (decayGE decay now) store).symm.subset hy
  have hsplit : List.insertionSort (decayGE decay now) store =
      (List.insertionSort (decayGE decay now) store).take max_records ++
        (List.insertionSort (decayGE decay now) store).drop max_records :=
    (List.take_append_drop _ _).symm
  have hydrop : y ∈ (List.insertionSort (decayGE decay now) store).drop max_records := by
    rw [hsplit] at hysorted
    rcases List.mem_append.mp hysorted with hcase | hcase
    · exact absurd hcase hyn
    · exact hcase
  have hsort : (List.insertionSort (decayGE decay now) store).Pairwise (decayGE decay now) :=
    List.sorted_insertionSort (decayGE decay now) store
  rw [hsplit] at hsort
  exact (List.pairwise_append.mp hsort).2.2 x hx y hydrop

theorem consolidate_idem (decay : Nat → Rat) (now max_records : Nat)
    (store : List MemoryRecord) :
    consolidate decay now max_records (consolidate decay now max_records store) =
      consolidate decay now max_records store := by
  by_cases h : store.length ≤ max_records
  · rw [consolidate_eq_of_le h, consolidate_eq_of_le h]
  · exact consolidate_eq_of_le (le_of_eq (consolidate_length (Nat.not_le.mp h)))

/-! ### Lemmas about the recorded chat usage numbers -/

theorem fabricatedTokens_bounds {r : Rat} (h1 : 0 ≤ r) (h2 : r < 1) :
    100 ≤ fabricatedTokens r ∧ fabricatedTokens r ≤ 600 := by
  unfold fabricatedTokens
  have hlo : (0 : Int) ≤ (r * 500).floor := by
    refine Rat.le_floor.mpr ?_
    push_cast
    positivity
  have hhi : (r * 500).floor < 500 := by
    by_contra hcon
    have h500 : (500 : Int) ≤ (r * 500).floor := Int.not_lt.mp hcon
    rw [Rat.le_floor] at h500
    have : r * 500 < 1 * 500 := by
      have h500pos : (0 : Rat) < 500 := by norm_num
      exact mul_lt_mul_of_pos_right h2 h500pos
    rw [one_mul] at this
    have : ((500 : Int) : Rat) ≤ r * 500 := h500
    push_cast at this
    linarith
  omega

theorem sim1_symm : ∀ u v, sim1 u v = sim1 v u := by
  intro u v
  unfold sim1
  by_cases h : u = v
  · rw [h]
  · rw [if_neg h, if_neg (fun hh => h hh.symm)]

/-! ### Claim theorems -/

/-- C1: for every valid `admit()` call, the `total_tokens` of the returned
`AdmissionResult` is the sum of `token_count` over its items and is at most
`config.max_tokens`; and a Context Store within budget remains within budget
after the reconciliation step of any further call. -/
theorem claim_budget_invariant (sim : List Rat → List Rat → Rat) (decay : Nat → Rat)
    (now : Nat) (cfg : Config) :
    (∀ current_items new_items R,
        admission sim decay now cfg current_items new_items = Except.ok R →
          R.total_tokens = sumTokens R.items ∧ sumTokens R.items ≤ cfg.max_tokens) ∧
    (∀ store new_items, sumTokens store ≤ cfg.max_tokens →
        sumTokens (admissionReconcile sim decay now cfg store new_items).1 ≤
          cfg.max_tokens) :=
  ⟨fun _ _ _ hok => admission_total_le hok,
   fun store new_items h => reconcile_preserves_budget sim decay now cfg store new_items h⟩

/-- C1 witness: both parts evaluated on a concrete one-item call. -/
theorem claim_budget_invariant_witness :
    (res0.total_tokens = sumTokens res0.items ∧ sumTokens res0.items ≤ cfg1.max_tokens) ∧
    sumTokens (admissionReconcile sim1 decay1 10 cfg1 [itemPlain] []).1 ≤ cfg1.max_tokens :=
  ⟨(claim_budget_invariant sim1 decay1 10 cfg1).1 [] [itemPlain] res0
      (by with_unfolding_all rfl),
   (claim_budget_invariant sim1 decay1 10 cfg1).2 [itemPlain] []
      (of_decide_eq_true (by with_unfolding_all rfl))⟩

/-- C2 counterexample: `itemSys` individually fits (10 ≤ 100) and the system
items alone stay within budget, yet the call succeeds without `itemSys` in
`result.items` — redundancy resolution dropped it in favour of the newer,
embedding-equal `itemUser`. -/
theorem claim_system_priority_counterexample :
    itemSys.kind = Kind.system ∧ itemSys.token_count ≤ cfg1.max_tokens ∧
    admission sim1 decay1 10 cfg1 [itemSys] [itemUser] = Except.ok resDedup ∧
    itemSys ∉ resDedup.items :=
  ⟨rfl, of_decide_eq_true (by with_unfolding_all rfl),
   by with_unfolding_all rfl,
   of_decide_eq_true (by with_unfolding_all rfl)⟩

/-- C2 (amended): for every `admit()` call, every system-kind candidate that
survives redundancy resolution appears in `result.items` when the call
succeeds; and when every candidate individually fits but the surviving
system-kind candidates together exceed `max_tokens`, the call fails with
`BudgetInfeasibleError`. -/
theorem claim_system_priority_amended (sim : List Rat → List Rat → Rat)
    (decay : Nat → Rat) (now : Nat) (cfg : Config) (cur new : List ContextItem) :
    (∀ R x, admission sim decay now cfg cur new = Except.ok R →
        x ∈ stageSurvivors sim cfg (cur ++ new) → x.kind = Kind.system →
          x ∈ R.items) ∧
    ((∀ z ∈ cur ++ new, z.token_count ≤ cfg.max_tokens) →
      cfg.max_tokens < sumTokens (stageSys (stageSurvivors sim cfg (cur ++ new))) →
        admission sim decay now cfg cur new = Except.error EngineError.budgetInfeasible) :=
  ⟨fun _ _ hok hx hk => system_in_items hok hx hk,
   fun hfit hover => infeasible_of_sys_overflow decay now hfit hover⟩

/-- C2 witness: a surviving system item is admitted, and two 60-token system
items against a 100-token budget raise `BudgetInfeasibleError`. -/
theorem claim_system_priority_amended_witness :
    itemSysPlain ∈ resSys.items ∧
    admission sim1 decay1 10 cfg1 [] [itemSys60a, itemSys60b] =
      Except.error EngineError.budgetInfeasible :=
  ⟨(claim_system_priority_amended sim1 decay1 10 cfg1 [] [itemSysPlain]).1 resSys itemSysPlain
      (by with_unfolding_all rfl)
      (of_decide_eq_true (by with_unfolding_all rfl)) rfl,
   (claim_system_priority_amended sim1 decay1 10 cfg1 [] [itemSys60a, itemSys60b]).2
      (of_decide_eq_true (by with_unfolding_all rfl))
      (of_decide_eq_true (by with_unfolding_all rfl))⟩

/-- C3: whenever two candidates both carry embeddings whose similarity
reaches the threshold, the earlier-created one never appears in
`result.items` while the later-created one does. -/
theorem claim_dedup_correctness (sim : List Rat → List Rat → Rat) (decay : Nat → Rat)
    (now : Nat) (cfg : Config) (cur new : List ContextItem) (R : AdmissionResult)
    (x y : ContextItem) (ex ey : List Rat)
    (hok : admission sim decay now cfg cur new = Except.ok R)
    (hxe : x.embedding = some ex) (hye : y.embedding = some ey)
    (hsim : cfg.similarity_threshold ≤ sim ex ey)
    (hca : x.created_at < y.created_at)
    (hy : y ∈ R.items) : x ∉ R.items :=
  admission_dedup_exclusion hok hxe hye hsim hca hy

/-- C3 witness: with identical embeddings (similarity 1 ≥ 0.92) the older
`itemSys` is excluded from the result that contains the newer `itemUser`. -/
theorem claim_dedup_correctness_witness : itemSys ∉ resDedup.items :=
  claim_dedup_correctness sim1 decay1 10 cfg1 [itemSys] [itemUser] resDedup
    itemSys itemUser [1] [1]
    (by with_unfolding_all rfl) rfl rfl
    (of_decide_eq_true (by with_unfolding_all rfl))
    (of_decide_eq_true (by with_unfolding_all rfl))
    (of_decide_eq_true (by with_unfolding_all rfl))

/-- C4: every `admit()` call either fully reconciles the Context Store to the
admitted items or, on any error, leaves the store completely unchanged; no
partial-success state exists. -/
theorem claim_atomic_reconcile (sim : List Rat → List Rat → Rat) (decay : Nat → Rat)
    (now : Nat) (cfg : Config) (store new_items : List ContextItem) :
    (∃ R, admission sim decay now cfg store new_items = Except.ok R ∧
        (admissionReconcile sim decay now cfg store new_items).1 = R.items) ∨
    (∃ e, admission sim decay now cfg store new_items = Except.error e ∧
        (admissionReconcile sim decay now cfg store new_items).1 = store) := by
  unfold admissionReconcile
  cases hcall : admission sim decay now cfg store new_items with
  | ok r => exact Or.inl ⟨r, rfl, rfl⟩
  | error e => exact Or.inr ⟨e, rfl, rfl⟩

/-- C5: a candidate pool containing any single item whose `token_count`
exceeds `max_tokens` makes the call fail with `ItemTooLargeError`, and the
store is left unchanged — the item is never truncated to fit. -/
theorem claim_item_too_large (sim : List Rat → List Rat → Rat) (decay : Nat → Rat)
    (now : Nat) (cfg : Config) (cur new : List ContextItem)
    (h : ∃ z ∈ cur ++ new, cfg.max_tokens < z.token_count) :
    admission sim decay now cfg cur new = Except.error EngineError.itemTooLarge ∧
    (admissionReconcile sim decay now cfg cur new).1 = cur := by
  obtain ⟨z, hz, hlt⟩ := h
  have herr : admission sim decay now cfg cur new =
      Except.error EngineError.itemTooLarge := by
    apply admission_eq_tooLarge
    rw [List.any_eq_true]
    exact ⟨z, hz, by simpa using hlt⟩
  exact ⟨herr, by simp [admissionReconcile, herr]⟩

/-- C5 witness: the 150-token `itemBig` against the 100-token budget. -/
theorem claim_item_too_large_witness :
    admission sim1 decay1 10 cfg1 [] [itemBig] =
      Except.error EngineError.itemTooLarge ∧
    (admissionReconcile sim1 decay1 10 cfg1 [] [itemBig]).1 = [] :=
  claim_item_too_large sim1 decay1 10 cfg1 [] [itemBig]
    ⟨itemBig, by simp, of_decide_eq_true (by with_unfolding_all rfl)⟩

/-- C6: after a successful call producing `R`, calling again at the same
clock with `current_items = R.items` and no new items succeeds and yields the
same set of items (a permutation, hence the same item set). -/
theorem claim_idempotence {sim : List Rat → List Rat → Rat} {decay : Nat → Rat}
    {now : Nat} {cfg : Config} {cur new : List ContextItem} {R : AdmissionResult}
    (hsym : ∀ u v, sim u v = sim v u)
    (hok : admission sim decay now cfg cur new = Except.ok R) :
    ∃ Rtwo, admission sim decay now cfg R.items [] = Except.ok Rtwo ∧
      Rtwo.items ~ R.items :=
  admission_idem hsym hok

/-- C6 witness: repeating the call that admitted `itemPlain`. -/
theorem claim_idempotence_witness :
    ∃ Rtwo, admission sim1 decay1 10 cfg1 res0.items [] = Except.ok Rtwo ∧
      Rtwo.items ~ res0.items :=
  claim_idempotence sim1_symm
    (show admission sim1 decay1 10 cfg1 [] [itemPlain] = Except.ok res0 by
      with_unfolding_all rfl)

/-- C7: when the store holds more than `max_records` records, `consolidate`
keeps exactly `max_records` records drawn from the store, every removed
record has decayed importance at most that of every kept record, and
consolidating again at the same `now` changes nothing. -/
theorem claim_consolidate (decay : Nat → Rat) (now max_records : Nat)
    (store : List MemoryRecord) (h : max_records < store.length) :
    (consolidate decay now max_records store).length = max_records ∧
    (∀ x ∈ consolidate decay now max_records store, x ∈ store) ∧
    (∀ x ∈ consolidate decay now max_records store, ∀ y ∈ store,
        y ∉ consolidate decay now max_records store →
          decayedImportance decay now y ≤ decayedImportance decay now x) ∧
    consolidate decay now max_records (consolidate decay now max_records store) =
      consolidate decay now max_records store :=
  ⟨consolidate_length h, consolidate_subset h, consolidate_keeps_highest h,
   consolidate_idem decay now max_records store⟩

/-- C7 witness: three records of decayed importances 0.9, 0.3 and 0.6 with
`max_records = 2` — only the 0.3 record is removed. -/
theorem claim_consolidate_witness :
    consolidate decay1 5 2 [rec9, rec3, rec6] = [rec9, rec6] ∧
    (consolidate decay1 5 2 [rec9, rec3, rec6]).length = 2 :=
  ⟨by with_unfolding_all rfl,
   (claim_consolidate decay1 5 2 [rec9, rec3, rec6] (by decide)).1⟩

/-- C8: an item built at insertion time carries exactly the Tokenizer
Adapter's count for its content, and `admit()` returns its items verbatim
from the candidate pool, so no stored `token_count` is ever re-derived or
replaced. -/
theorem claim_token_count_exact (count_tokens : String → Nat)
    (sim : List Rat → List Rat → Rat) (decay : Nat → Rat) (now : Nat) (cfg : Config) :
    (∀ id kind content embedding created_at importance,
        (mkContextItem count_tokens id kind content embedding created_at
          importance).token_count = count_tokens content) ∧
    (∀ current_items new_items R x,
        admission sim decay now cfg current_items new_items = Except.ok R →
          x ∈ R.items → x ∈ current_items ++ new_items) :=
  ⟨fun _ _ _ _ _ _ => rfl,
   fun _ _ _ x hok hx => admission_items_subset_pool hok x hx⟩

/-- C8 witness: a concrete item creation and a concrete admitted item traced
back to the pool. -/
theorem claim_token_count_exact_witness :
    (mkContextItem String.length 9 Kind.user "ab" none 0 (1 / 2)).token_count =
      String.length "ab" ∧
    itemPlain ∈ [] ++ [itemPlain] :=
  ⟨(claim_token_count_exact String.length sim1 decay1 10 cfg1).1
      9 Kind.user "ab" none 0 (1 / 2),
   (claim_token_count_exact String.length sim1 decay1 10 cfg1).2 [] [itemPlain] res0 itemPlain
      (by with_unfolding_all rfl)
      (of_decide_eq_true (by with_unfolding_all rfl))⟩

/-- C9: the Dashboard's System Resources panel renders the constants 65 %, 32
% and 78 % whatever the fetched agents and health data are; two runs with
different backend data display identical utilizations. -/
theorem claim_dashboard_constant :
    (∀ a₁ h₁ a₂ h₂, systemResources a₁ h₁ = systemResources a₂ h₂) ∧
    (∀ a h, systemResources a h = (65, 32, 78)) :=
  ⟨fun _ _ _ _ => rfl, fun _ _ => rfl⟩

/-- C10 counterexample: a response with `tokens_used = 0` but backend
`cost = 1` records cost 1, outside `[0, 0.01)` — the fabricated-cost bound
claimed for every zero-`tokens_used` response fails. -/
theorem claim_recorded_usage_counterexample :
    recordedTokensUsed (some 0) 0 = 100 ∧
    recordedCost (some 1) 0 = 1 ∧
    ¬ recordedCost (some 1) 0 < 1 / 100 :=
  ⟨by with_unfolding_all rfl, by with_unfolding_all rfl,
   of_decide_eq_true (by with_unfolding_all rfl)⟩

/-- C10 (amended): when the response's `tokens_used` is absent or 0 the
recorded value is a random integer in `[100, 600]`, never the backend's 0 and
independent of the response; the `[0, 0.01)` bound on the recorded cost holds
when the response's `cost` is also absent or 0. -/
theorem claim_recorded_usage_amended (resp_tokens : Option Int) (resp_cost : Option Rat)
    (r1 r2 : Rat) (h1 : 0 ≤ r1) (h2 : r1 < 1) (h3 : 0 ≤ r2) (h4 : r2 < 1)
    (ht : resp_tokens = none ∨ resp_tokens = some 0) :
    (100 ≤ recordedTokensUsed resp_tokens r1 ∧ recordedTokensUsed resp_tokens r1 ≤ 600 ∧
      recordedTokensUsed resp_tokens r1 ≠ 0) ∧
    ((resp_cost = none ∨ resp_cost = some 0) →
      0 ≤ recordedCost resp_cost r2 ∧ recordedCost resp_cost r2 < 1 / 100) ∧
    (∀ other : Option Int, (other = none ∨ other = some 0) →
      recordedTokensUsed other r1 = recordedTokensUsed resp_tokens r1) := by
  have hfab := fabricatedTokens_bounds h1 h2
  have htok : recordedTokensUsed resp_tokens r1 = fabricatedTokens r1 := by
    rcases ht with rfl | rfl
    · rfl
    · simp [recordedTokensUsed]
  refine ⟨?_, ?_, ?_⟩
  · rw [htok]
    exact ⟨hfab.1, hfab.2, by omega⟩
  · intro hc
    have hcost : recordedCost resp_cost r2 = r2 * (1 / 100) := by
      rcases hc with rfl | rfl
      · rfl
      · simp [recordedCost]
    rw [hcost]
    constructor
    · positivity
    · have hmul := mul_lt_mul_of_pos_right h4 (show (0 : Rat) < 1 / 100 by norm_num)
      simpa using hmul
  · intro other hother
    have h5 : recordedTokensUsed other r1 = fabricatedTokens r1 := by
      rcases hother with rfl | rfl
      · rfl
      · simp [recordedTokensUsed]
    rw [h5, htok]

/-- C10 witness: the amended bounds at the draw `r = 1/2` with both response
fields absent. -/
theorem claim_recorded_usage_amended_witness :
    100 ≤ recordedTokensUsed none (1 / 2) :=
  ((claim_recorded_usage_amended none none (1 / 2) (1 / 2)
      (of_decide_eq_true (by with_unfolding_all rfl))
      (of_decide_eq_true (by with_unfolding_all rfl))
      (of_decide_eq_true (by with_unfolding_all rfl))
      (of_decide_eq_true (by with_unfolding_all rfl))
      (Or.inl rfl)).1).1

end AgentSquad
